import Mathlib

/-!
Shallow embedding of the SGP-3 Indexing & Routing Engine.

The definitions below are translated from the repository's source:
  * `buildTokenGraph`, `findAllPathsBFS`, `findOptimalPath`,
    `estimateMultiHopGas`, the `/pool/:id`, `/multi-hop-quote` and
    `/portfolio/:user` endpoint cores — from `Ethereum/Indexer/src/server.ts`;
  * the `PairCreated` / `Swap` event handlers — from the indexer process
    (`index.ts`, with the Prisma schema's unique constraints on
    `Token.address` and `Pool.address`);
  * `getQuantityOut` (AMM.sol), `getAmountsOut` / `getAmountOut`
    (AMMRouter.sol) and the factory's `getPair` mapping (AMMFactory.sol).

Conventions: token and pool addresses are `String`s (they are strings in the
TypeScript code); `uint256` quantities are `Nat` (Solidity 0.8 reverts on
overflow rather than wrapping, so `Nat` models every non-reverting run);
database `TEXT` amount columns are kept as the strings the code writes;
fallible operations return `Except`/`Option`.  The BFS loop of
`findAllPathsBFS` is written with an explicit fuel argument large enough to
drain the work queue on the concrete instances evaluated below; all general
theorems about it are fuel-independent safety properties.
-/

namespace Engine

/-- A token row as read back from storage (Prisma `Token`). -/
structure Token where
  id : Nat
  address : String
  symbol : String
  name : Option String
  decimals : Nat
deriving Repr, DecidableEq

/-- A pool row with its two included token rows, as `prisma.pool.findMany
({ include: { tokenA: true, tokenB: true } })` returns it. -/
structure Pool where
  id : Nat
  address : String
  tokenA : Token
  tokenB : Token
deriving Repr, DecidableEq

/-! ### Token graph builder (`buildTokenGraph`, server.ts) -/

/-- The JS `Map<string, string[]>` adjacency map, modelled as an association
list in key-insertion order. -/
abbrev Graph := List (String × List String)

/-- `graph.has(k)`. -/
def graphHas (g : Graph) (k : String) : Bool :=
  g.any (fun e => e.1 == k)

/-- `graph.get(k) || []` — the adjacency list of `k`, `[]` when absent. -/
def graphGet (g : Graph) (k : String) : List String :=
  match g.find? (fun e => e.1 == k) with
  | some e => e.2
  | none => []

/-- `graph.set(k, v)`: replace the binding of `k` (or append it). -/
def graphSet (g : Graph) (k : String) (v : List String) : Graph :=
  match g with
  | [] => [(k, v)]
  | e :: rest => if e.1 == k then (k, v) :: rest else e :: graphSet rest k v

/-- `graph.get(k).push(x)` on a key known (or not) to be present. -/
def graphPush (g : Graph) (k : String) (x : String) : Graph :=
  graphSet g k (graphGet g k ++ [x])

/-- `if (!graph.has(k)) graph.set(k, [])`. -/
def graphEnsure (g : Graph) (k : String) : Graph :=
  if graphHas g k then g else g ++ [(k, [])]

/-- One iteration of `buildTokenGraph`'s `for (const pool of pools)` loop. -/
def buildStep (g : Graph) (pool : Pool) : Graph :=
  let tokenA := pool.tokenA.address
  let tokenB := pool.tokenB.address
  let g := graphEnsure g tokenA
  let g := graphEnsure g tokenB
  let g := graphPush g tokenA tokenB
  graphPush g tokenB tokenA

/-- `buildTokenGraph(pools)` (server.ts): every pool contributes one adjacency
entry in each direction. -/
def buildTokenGraph (pools : List Pool) : Graph :=
  pools.foldl buildStep []

/-! ### Path enumerator (`findAllPathsBFS`, server.ts) -/

/-- The loop body of `findAllPathsBFS`, with explicit fuel bounding the number
of dequeues.  `queue` is the JS array used as a FIFO queue of partial paths,
`visited` the set of memoized partial-path signatures (comma-joined), `acc`
the result paths in emission order. -/
def bfsLoop (graph : Graph) (e : String) (maxDepth : Nat) :
    Nat → List (List String) → List String → List (List String) → List (List String)
  | 0, _, _, acc => acc
  | _ + 1, [], _, acc => acc
  | fuel + 1, currentPath :: queue, visited, acc =>
    let currentNode := currentPath.getLastD ""
    if currentPath.length > maxDepth + 1 then
      bfsLoop graph e maxDepth fuel queue visited acc
    else if currentNode == e && currentPath.length > 1 then
      bfsLoop graph e maxDepth fuel queue visited (acc ++ [currentPath])
    else
      let pathKey := String.intercalate "," currentPath
      if visited.contains pathKey then
        bfsLoop graph e maxDepth fuel queue visited acc
      else
        let visited := visited ++ [pathKey]
        let neighbors := graphGet graph currentNode
        let ext := (neighbors.filter (fun n => !currentPath.contains n)).map
          (fun n => currentPath ++ [n])
        bfsLoop graph e maxDepth fuel (queue ++ ext) visited acc

/-- Fuel sufficient to drain the queue on the instances evaluated in this
file (the loop stops as soon as the queue is empty, so over-provisioning is
harmless; the general theorems below hold for every fuel). -/
def bfsFuel (graph : Graph) (maxDepth : Nat) : Nat :=
  (graph.foldl (fun acc e => acc + e.2.length) 0 + 2) ^ (maxDepth + 2)

/-- `findAllPathsBFS(graph, start, end, maxDepth)` (server.ts). -/
def findAllPathsBFS (graph : Graph) (s e : String) (maxDepth : Nat) :
    List (List String) :=
  bfsLoop graph e maxDepth (bfsFuel graph maxDepth) [[s]] [] []

/-! ### On-chain pricing (`AMM.getQuantityOut`, `AMMRouter.getAmountsOut`,
`AMMFactory.getPair`) -/

/-- An AMM pair contract's relevant state: its two (sorted) token addresses
and current reserves. -/
structure Pair where
  token0 : String
  token1 : String
  reserve0 : Nat
  reserve1 : Nat
deriving Repr, DecidableEq

/-- The factory's `getPair[a][b]` double mapping: `createPair` stores the pair
under both orderings, so lookup succeeds in either order; `none` models
`address(0)`. -/
def getPair (chain : List Pair) (a b : String) : Option Pair :=
  chain.find? (fun p =>
    (p.token0 == a && p.token1 == b) || (p.token0 == b && p.token1 == a))

/-- `AMM.getQuantityOut(tokenIn, amountIn)` (AMM.sol): constant-product
quote with zero fee and floor division; the two `require`s become errors. -/
def getQuantityOut (p : Pair) (tokenIn : String) (amountIn : Nat) :
    Except String Nat :=
  if amountIn = 0 then .error "Invalid amount"
  else if tokenIn = p.token0 then
    .ok (p.reserve1 - p.reserve0 * p.reserve1 / (p.reserve0 + amountIn))
  else if tokenIn = p.token1 then
    .ok (p.reserve0 - p.reserve1 * p.reserve0 / (p.reserve1 + amountIn))
  else .error "Invalid token"

/-- `AMMRouter.getAmountOut(amountIn, tokenIn, tokenOut)`: pair lookup
(reverting `PairNotFound` on a missing pair) followed by the pair's quote. -/
def getAmountOut (chain : List Pair) (amountIn : Nat) (tokenIn tokenOut : String) :
    Except String Nat :=
  match getPair chain tokenIn tokenOut with
  | none => .error "PairNotFound"
  | some p => getQuantityOut p tokenIn amountIn

/-- The loop of `AMMRouter.getAmountsOut`: `amounts[i+1] =
getAmountOut(amounts[i], path[i], path[i+1])`; returns the amounts after the
current one. -/
def getAmountsFrom (chain : List Pair) (amt : Nat) : List String → Except String (List Nat)
  | t1 :: t2 :: rest => do
    let nxt ← getAmountOut chain amt t1 t2
    let tail ← getAmountsFrom chain nxt (t2 :: rest)
    pure (nxt :: tail)
  | _ => .ok []

/-- `AMMRouter.getAmountsOut(amountIn, path)`: reverts `InvalidPath` for paths
shorter than 2, else the chained amounts with `amounts[0] = amountIn`. -/
def getAmountsOut (chain : List Pair) (amountIn : Nat) (path : List String) :
    Except String (List Nat) :=
  if path.length < 2 then .error "InvalidPath"
  else do
    let tail ← getAmountsFrom chain amountIn path
    pure (amountIn :: tail)

/-! ### Route evaluator (`findOptimalPath`, `estimateMultiHopGas`, server.ts) -/

/-- `estimateMultiHopGas(path, amountIn)`: `60000 + 120000 * hops`. -/
def estimateMultiHopGas (path : List String) : Nat :=
  60000 + 120000 * (path.length - 1)

/-- One entry of the `allPaths` array built by `findOptimalPath` (also the
shape of its `direct`/`optimal` fields). -/
structure RouteQuote where
  path : List String
  expectedOutput : Nat
  hops : Nat
  gasEstimate : Nat
deriving Repr, DecidableEq

/-- The mutable locals of `findOptimalPath`'s path loop. -/
structure EvalState where
  allPaths : List RouteQuote
  direct : Option RouteQuote
  bestPath : Option (List String)
  bestOutput : Nat
deriving Repr, DecidableEq

/-- One iteration of `findOptimalPath`'s `for (const path of allPaths)` loop:
a failing chained quote is skipped entirely; a surviving path is appended to
`allPaths`, promoted to best on a strictly greater final output (the JS
`output > bestOutput` compares the bigint against the running decimal string
numerically), and recorded as `direct` when it has exactly 2 tokens. -/
def evalStep (chain : List Pair) (testAmount : Nat) (st : EvalState)
    (path : List String) : EvalState :=
  match getAmountsOut chain testAmount path with
  | .error _ => st
  | .ok amounts =>
    let output := amounts.getLastD 0
    let q : RouteQuote :=
      { path := path, expectedOutput := output, hops := path.length - 1,
        gasEstimate := estimateMultiHopGas path }
    let st := { st with allPaths := st.allPaths ++ [q] }
    let st :=
      if output > st.bestOutput then
        { st with bestPath := some path, bestOutput := output }
      else st
    if path.length = 2 then { st with direct := some q } else st

/-- The value `findOptimalPath` resolves with. -/
structure OptimalPathResult where
  direct : Option RouteQuote
  optimal : Option RouteQuote
  allPaths : List RouteQuote
deriving Repr, DecidableEq

/-- `findOptimalPath(tokenA, tokenB, testAmount)` (server.ts): build the graph
from the pool registry, enumerate candidate paths with a hard-coded depth of
4, evaluate each candidate's chained quote, and assemble
direct/optimal/allPaths. -/
def findOptimalPath (pools : List Pool) (chain : List Pair)
    (tokenA tokenB : String) (testAmount : Nat) : OptimalPathResult :=
  let graph := buildTokenGraph pools
  let allPaths := findAllPathsBFS graph tokenA tokenB 4
  if allPaths.length = 0 then
    { direct := none, optimal := none, allPaths := [] }
  else
    let st := allPaths.foldl (evalStep chain testAmount)
      { allPaths := [], direct := none, bestPath := none, bestOutput := 0 }
    { direct := st.direct
      optimal := st.bestPath.map (fun p =>
        { path := p, expectedOutput := st.bestOutput, hops := p.length - 1,
          gasEstimate := estimateMultiHopGas p })
      allPaths := st.allPaths }

/-! ### Pool registry indexer (index.ts `PairCreated` / `Swap` handlers,
Prisma schema's `Token_address_key` / `Pool_address_key` unique indexes) -/

/-- A pool row as stored (token references by id, as in the Prisma schema). -/
structure DbPool where
  id : Nat
  address : String
  tokenAId : Nat
  tokenBId : Nat
deriving Repr, DecidableEq

/-- The token/pool portion of the store, plus the serial id counters. -/
structure Db where
  tokens : List Token
  pools : List DbPool
  nextTokenId : Nat
  nextPoolId : Nat
deriving Repr, DecidableEq

/-- Token metadata as fetched once by `getTokenMeta`. -/
structure TokenMeta where
  symbol : String
  name : Option String
  decimals : Nat
deriving Repr, DecidableEq

/-- `prisma.token.upsert({ where: { address }, update: {}, create: {...} })`:
return the existing row unchanged if the address is present, else insert a
fresh row. -/
def upsertToken (db : Db) (address : String) (meta : TokenMeta) : Db × Token :=
  match db.tokens.find? (fun t => t.address == address) with
  | some t => (db, t)
  | none =>
    let t : Token :=
      { id := db.nextTokenId, address := address, symbol := meta.symbol,
        name := meta.name, decimals := meta.decimals }
    ({ db with tokens := db.tokens ++ [t], nextTokenId := db.nextTokenId + 1 }, t)

/-- `prisma.pool.create`: plain insert; the `Pool_address_key` unique index
rejects a second row with the same address. -/
def createPool (db : Db) (address : String) (tokenAId tokenBId : Nat) :
    Except String Db :=
  if db.pools.any (fun p => p.address == address) then
    .error "Unique constraint failed on Pool_address_key"
  else
    .ok { db with
      pools := db.pools ++
        [{ id := db.nextPoolId, address := address,
           tokenAId := tokenAId, tokenBId := tokenBId }],
      nextPoolId := db.nextPoolId + 1 }

/-- A decoded `PairCreated(tokenA, tokenB, pair)` event. -/
structure PairCreatedEvent where
  tokenA : String
  tokenB : String
  pair : String
deriving Repr, DecidableEq

/-- The `PairCreated` handler in `main()` (index.ts): upsert both tokens, then
`pool.create`.  The two upserts are separate writes, so they persist even when
the subsequent pool insert is rejected; the handler's outcome is the second
component. -/
def handlePairCreated (db : Db) (ev : PairCreatedEvent)
    (metaA metaB : TokenMeta) : Db × Except String Unit :=
  let r1 := upsertToken db ev.tokenA metaA
  let r2 := upsertToken r1.1 ev.tokenB metaB
  match createPool r2.1 ev.pair r1.2.id r2.2.id with
  | .ok db' => (db', .ok ())
  | .error e => (r2.1, .error e)

/-- A decoded pair `Swap(sender, amount0In, amount1In, amount0Out, amount1Out,
to)` event. -/
structure SwapObserved where
  sender : String
  amount0In : Nat
  amount1In : Nat
  amount0Out : Nat
  amount1Out : Nat
  toAddr : String
deriving Repr, DecidableEq

/-- The swap row the handler persists (`prisma.swap.create`); the amount
columns are `TEXT`, holding exactly the strings the handler builds. -/
structure SwapRecord where
  poolId : Nat
  trader : String
  amountIn : String
  amountOut : String
  tokenIn : String
  tokenOut : String
deriving Repr, DecidableEq

/-- JavaScript `a || b` on two strings: `b` only when `a` is the empty string
(the only falsy string). -/
def jsStringOr (a b : String) : String :=
  if a == "" then b else a

/-- The `Swap` listener of `attachPairListener` (index.ts): resolve the pool
by pair address (a missing pool makes the handler throw into its `catch`, so
nothing is persisted — `none`), then persist
`amountIn = amount0In.toString() || amount1In.toString()` (and likewise for
`amountOut`), with `tokenIn = amount0In > 0 ? "token0" : "token1"` and
`tokenOut = amount0Out > 0 ? "token0" : "token1"`. -/
def handleSwap (db : Db) (pairAddress : String) (ev : SwapObserved) :
    Option SwapRecord :=
  match db.pools.find? (fun p => p.address == pairAddress) with
  | none => none
  | some pool => some
    { poolId := pool.id
      trader := ev.sender
      amountIn := jsStringOr (toString ev.amount0In) (toString ev.amount1In)
      amountOut := jsStringOr (toString ev.amount0Out) (toString ev.amount1Out)
      tokenIn := if ev.amount0In > 0 then "token0" else "token1"
      tokenOut := if ev.amount0Out > 0 then "token0" else "token1" }

/-! ### Server endpoint cores (server.ts) -/

/-- `maxHops` as used by `GET /all-paths`: `Math.min(parseInt(q) || 3, 4)`.
`none` models an absent or non-numeric query value (`parseInt` gives `NaN`,
which is falsy, as is a parsed `0`). -/
def allPathsMaxHops (q : Option Nat) : Nat :=
  match q with
  | none => min 3 4
  | some h => min (if h = 0 then 3 else h) 4

/-- A stored liquidity row joined with its pool's two token rows, as the
`/pool/:id` and `/portfolio/:user` queries read it back.  The handlers apply
`Number(...)` to the `TEXT` amount columns, yielding signed values. -/
structure LiquidityRow where
  poolId : Nat
  provider : String
  amountA : Int
  amountB : Int
deriving Repr, DecidableEq

/-- The response of `GET /pool/:id`, reduced to the fields the claims are
about: a missing pool is answered with status 404 and an error message,
a present pool with status 200 and the derived reserves/TVL. -/
inductive PoolLookupResult where
  | notFound (status : Nat) (error : String)
  | found (pool : DbPool) (reserveA reserveB tvl : Int)
deriving Repr, DecidableEq

/-- `GET /pool/:id` (server.ts): `findUnique` by id; `if (!pool) return
res.status(404).json({ error: "Pool not Found" })`; else sum the pool's
liquidity history into reserves and a TVL. -/
def getPoolById (pools : List DbPool) (liquidity : List LiquidityRow)
    (iD : Nat) : PoolLookupResult :=
  match pools.find? (fun p => p.id == iD) with
  | none => .notFound 404 "Pool not Found"
  | some pool =>
    let rows := liquidity.filter (fun l => l.poolId == pool.id)
    let reserveA := rows.foldl (fun acc l => acc + l.amountA) 0
    let reserveB := rows.foldl (fun acc l => acc + l.amountB) 0
    .found pool reserveA reserveB (reserveA + reserveB)

/-- The response of `POST /multi-hop-quote`, reduced to the claims' fields. -/
inductive QuoteResponse where
  | badRequest (error : String)
  | quoteOk (path : List String) (amountIn amountOut : Nat)
      (amounts : List Nat) (gasEstimate : Nat) (hops : Nat)
  | serverError (error : String)
deriving Repr, DecidableEq

/-- `POST /multi-hop-quote` (server.ts): `if (!Array.isArray(path) ||
path.length < 2) return res.status(400).json({ error: "Invalid path" })`
before any quoting; then the router quote and the gas estimate — a thrown
quote lands in the `catch` as a 500.  `none` models a body whose `path` is
missing or not an array. -/
def multiHopQuote (chain : List Pair) (pathField : Option (List String))
    (amountIn : Nat) : QuoteResponse :=
  match pathField with
  | none => .badRequest "Invalid path"
  | some path =>
    if path.length < 2 then .badRequest "Invalid path"
    else
      match getAmountsOut chain amountIn path with
      | .error _ => .serverError "Failed to get quote"
      | .ok amounts =>
        .quoteOk path amountIn (amounts.getLastD 0) amounts
          (estimateMultiHopGas path) (path.length - 1)

/-- A portfolio position after the `include: { pool: { include: { tokenA,
tokenB } } }` join: the row plus its pool's id and token symbols. -/
structure Position where
  poolId : Nat
  symbolA : String
  symbolB : String
  amountA : Int
  amountB : Int
deriving Repr, DecidableEq

/-- One group of the `/portfolio/:user` response. -/
structure PortfolioGroup where
  pool : String
  poolId : Nat
  totalAmountA : Int
  totalAmountB : Int
  positionsCount : Nat
deriving Repr, DecidableEq

/-- The `positions.forEach` body of `GET /portfolio/:user` (server.ts): the
grouping key is the symbol string `` `${tokenA.symbol}-${tokenB.symbol}` ``;
a new group captures the poolId of the position that created it; every later
position with the same key is merged into that group. -/
def portfolioStep (groups : List PortfolioGroup) (pos : Position) :
    List PortfolioGroup :=
  let poolKey := pos.symbolA ++ "-" ++ pos.symbolB
  let fresh : PortfolioGroup :=
    { pool := poolKey, poolId := pos.poolId,
      totalAmountA := 0, totalAmountB := 0, positionsCount := 0 }
  let groups :=
    if groups.any (fun grp => grp.pool == poolKey) then groups
    else groups ++ [fresh]
  groups.map (fun grp =>
    if grp.pool == poolKey then
      { grp with
        totalAmountA := grp.totalAmountA + pos.amountA
        totalAmountB := grp.totalAmountB + pos.amountB
        positionsCount := grp.positionsCount + 1 }
    else grp)

/-- `GET /portfolio/:user`: group the user's positions with `portfolioStep`,
in query order (JS `Map` preserves insertion order). -/
def portfolioGroups (positions : List Position) : List PortfolioGroup :=
  positions.foldl portfolioStep []

/-! ### Concrete fixtures used by witnesses and counterexamples -/

/-- A token row with the given id, address and symbol. -/
def mkToken (i : Nat) (addr sym : String) : Token :=
  { id := i, address := addr, symbol := sym, name := none, decimals := 18 }

def poolAB : Pool := ⟨1, "pool-ab", mkToken 1 "A" "TKA", mkToken 2 "B" "TKB"⟩

/-- A second pool over the same token pair as `poolAB` (a parallel pool). -/
def poolAB2 : Pool := ⟨2, "pool-ab-2", mkToken 1 "A" "TKA", mkToken 2 "B" "TKB"⟩

def poolBC : Pool := ⟨3, "pool-bc", mkToken 2 "B" "TKB", mkToken 3 "C" "TKC"⟩

def poolCD : Pool := ⟨4, "pool-cd", mkToken 3 "C" "TKC", mkToken 4 "D" "TKD"⟩

def poolDE : Pool := ⟨5, "pool-de", mkToken 4 "D" "TKD", mkToken 5 "E" "TKE"⟩

/-- A registry forming the line A–B–C–D–E (one 4-hop route from A to E). -/
def chainPools : List Pool := [poolAB, poolBC, poolCD, poolDE]

/-- Healthy on-chain reserves for every pool of `chainPools`. -/
def chain4 : List Pair :=
  [⟨"A", "B", 1000, 1000⟩, ⟨"B", "C", 1000, 1000⟩,
   ⟨"C", "D", 1000, 1000⟩, ⟨"D", "E", 1000, 1000⟩]

/-- The surviving quote for the 4-hop route of `chainPools`/`chain4` at input
100. -/
def quoteABCDE : RouteQuote :=
  { path := ["A", "B", "C", "D", "E"], expectedOutput := 73, hops := 4,
    gasEstimate := 540000 }

def poolXY : Pool := ⟨6, "pool-xy", mkToken 11 "X" "TKX", mkToken 12 "Y" "TKY"⟩

def poolXZ : Pool := ⟨7, "pool-xz", mkToken 11 "X" "TKX", mkToken 13 "Z" "TKZ"⟩

def poolZY : Pool := ⟨8, "pool-zy", mkToken 13 "Z" "TKZ", mkToken 12 "Y" "TKY"⟩

/-- Registry with routes X→Y directly and via Z. -/
def zeroPools : List Pool := [poolXY, poolXZ, poolZY]

/-- Reserves under which both X→Y routes quote successfully with output 0
(the output-side reserves of the X–Y and Z–Y pairs are empty). -/
def chainZero : List Pair :=
  [⟨"X", "Y", 1, 0⟩, ⟨"X", "Z", 10, 10⟩, ⟨"Y", "Z", 0, 1⟩]

/-- An empty store. -/
def dbEmpty : Db := ⟨[], [], 1, 1⟩

/-- A store holding exactly one pool, `pool-ab`, with id 1. -/
def dbOnePool : Db := ⟨[mkToken 1 "A" "TKA", mkToken 2 "B" "TKB"], [⟨1, "pool-ab", 1, 2⟩], 3, 2⟩

def evAB : PairCreatedEvent := ⟨"A", "B", "pool-ab"⟩

def metaTKA : TokenMeta := ⟨"TKA", none, 18⟩

def metaTKB : TokenMeta := ⟨"TKB", none, 18⟩

/-! ### Derived predicates and counters used by the theorems -/

/-- The property C1 asserts of every emitted path (plus the ≥2-token fact the
code's emission guard enforces, which drives the `a = b` clause). -/
def bfsPathOk (s e : String) (H : Nat) (p : List String) : Prop :=
  p.head? = some s ∧ p.getLast? = some e ∧ p.length ≤ H + 1 ∧ p.Nodup ∧ 2 ≤ p.length

/-- How many adjacency entries for `u` a single pool contributes to token
`t`'s list: one per direction in which the pool joins `t` to `u`. -/
def poolDegree (t u : String) (p : Pool) : Nat :=
  (if p.tokenA.address = t ∧ p.tokenB.address = u then 1 else 0) +
  (if p.tokenB.address = t ∧ p.tokenA.address = u then 1 else 0)

/-- Well-formedness of accumulated quotes: hops and gas estimate are the
functions of the quote's own path that the loop computes. -/
def quotesWf (l : List RouteQuote) : Prop :=
  ∀ q ∈ l, q.hops = q.path.length - 1 ∧ q.gasEstimate = estimateMultiHopGas q.path

/-- Invariant of the selection loop: either no best path is set and every
surviving quote so far has output 0, or the best path points at the first
surviving quote attaining the (positive) running maximum. -/
def selInv (st : EvalState) : Prop :=
  quotesWf st.allPaths ∧
  (st.bestPath = none → st.bestOutput = 0 ∧
    ∀ q ∈ st.allPaths, q.expectedOutput = 0) ∧
  (∀ p, st.bestPath = some p →
    ∃ l1 q l2, st.allPaths = l1 ++ q :: l2 ∧ q.path = p ∧
      q.expectedOutput = st.bestOutput ∧ 0 < st.bestOutput ∧
      (∀ q1 ∈ l1, q1.expectedOutput < st.bestOutput) ∧
      (∀ q2 ∈ l2, q2.expectedOutput ≤ st.bestOutput))

/-- Number of Token rows holding the given address. -/
def tokenCount (db : Db) (addr : String) : Nat :=
  (db.tokens.filter (fun t => t.address == addr)).length

/-- Number of Pool rows holding the given address. -/
def poolCount (db : Db) (addr : String) : Nat :=
  (db.pools.filter (fun p => p.address == addr)).length

/-! ## Theorems -/

/-! ### Generic helper lemmas -/

theorem getLast?_eq_some_getLastD {α : Type} (l : List α) (d : α) (h : l ≠ []) :
    l.getLast? = some (l.getLastD d) := by
  obtain ⟨x, hx⟩ := Option.isSome_iff_exists.mp (List.getLast?_isSome.mpr h)
  rw [hx, List.getLastD_eq_getLast?, hx]
  rfl

theorem not_mem_of_contains_eq_false {l : List String} {a : String}
    (h : l.contains a = false) : a ∉ l := by
  intro hmem
  have h2 : l.contains a = true := by
    rw [List.contains_eq_any_beq, List.any_eq_true]
    exact ⟨a, hmem, by simp⟩
  rw [h2] at h
  simp at h

/-! ### C1: soundness of the path enumerator -/

/-- Safety invariant of the BFS loop: if every queued partial path is a
nonempty duplicate-free path starting at `s`, every result path satisfies
`bfsPathOk` — for any fuel. -/
theorem bfsLoop_sound (graph : Graph) (s e : String) (H : Nat) :
    ∀ (fuel : Nat) (queue : List (List String)) (visited : List String)
      (acc : List (List String)),
      (∀ p ∈ queue, p ≠ [] ∧ p.head? = some s ∧ p.Nodup) →
      (∀ p ∈ acc, bfsPathOk s e H p) →
      ∀ p ∈ bfsLoop graph e H fuel queue visited acc, bfsPathOk s e H p := by
  intro fuel
  induction fuel with
  | zero =>
    intro queue visited acc _ hacc p hp
    exact hacc p hp
  | succ n ih =>
    intro queue visited acc hq hacc p hp
    cases queue with
    | nil =>
      exact hacc p hp
    | cons currentPath rest =>
      obtain ⟨hne, hhead, hnodup⟩ := hq currentPath (List.mem_cons_self _ _)
      have hqrest : ∀ q ∈ rest, q ≠ [] ∧ q.head? = some s ∧ q.Nodup :=
        fun q hq' => hq q (List.mem_cons_of_mem _ hq')
      simp only [bfsLoop] at hp
      split at hp
      · exact ih rest visited acc hqrest hacc p hp
      · rename_i hlen
        split at hp
        · rename_i hguard
          refine ih rest visited (acc ++ [currentPath]) hqrest ?_ p hp
          intro q hqmem
          rcases List.mem_append.mp hqmem with h | h
          · exact hacc q h
          · have hq' : q = currentPath := by simpa using h
            subst hq'
            have hg := hguard
            rw [Bool.and_eq_true, beq_iff_eq, decide_eq_true_eq] at hg
            refine ⟨hhead, ?_, ?_, hnodup, ?_⟩
            · rw [getLast?_eq_some_getLastD q "" hne, hg.1]
            · omega
            · omega
        · split at hp
          · exact ih rest visited acc hqrest hacc p hp
          · refine ih _ _ acc ?_ hacc p hp
            intro q hqmem
            rcases List.mem_append.mp hqmem with h | h
            · exact hqrest q h
            · rw [List.mem_map] at h
              obtain ⟨m, hmmem, rfl⟩ := h
              rw [List.mem_filter] at hmmem
              have hmnot : m ∉ currentPath := by
                apply not_mem_of_contains_eq_false
                have := hmmem.2
                simp only [Bool.not_eq_true'] at this
                exact this
              obtain ⟨x, t, rfl⟩ := List.exists_cons_of_ne_nil hne
              refine ⟨by simp, ?_, ?_⟩
              · simpa using hhead
              · rw [List.nodup_append]
                refine ⟨hnodup, List.nodup_singleton m, ?_⟩
                intro a ha hb
                rw [List.mem_singleton] at hb
                subst hb
                exact hmnot ha

/-- C1: for every token graph, source `a`, destination `b` and hop bound `H`,
`findAllPathsBFS` returns only paths that start at `a`, end at `b`, have at
most `H + 1` tokens and repeat no token; and when `a = b` it returns the
empty list. -/
theorem findAllPathsBFS_sound (graph : Graph) (a b : String) (H : Nat) :
    (∀ p ∈ findAllPathsBFS graph a b H,
        p.head? = some a ∧ p.getLast? = some b ∧ p.length ≤ H + 1 ∧ p.Nodup) ∧
    (a = b → findAllPathsBFS graph a b H = []) := by
  have hsound : ∀ p ∈ findAllPathsBFS graph a b H, bfsPathOk a b H p := by
    intro p hp
    refine bfsLoop_sound graph a b H (bfsFuel graph H) [[a]] [] [] ?_ ?_ p hp
    · intro q hq
      have : q = [a] := by simpa using hq
      subst this
      exact ⟨by simp, by simp, List.nodup_singleton a⟩
    · intro q hq
      simp at hq
  constructor
  · intro p hp
    obtain ⟨h1, h2, h3, h4, _⟩ := hsound p hp
    exact ⟨h1, h2, h3, h4⟩
  · intro hab
    subst hab
    rw [List.eq_nil_iff_forall_not_mem]
    intro p hp
    obtain ⟨h1, h2, _, h4, h5⟩ := hsound p hp
    have hpne : p ≠ [] := by
      intro h
      rw [h] at h1
      simp at h1
    obtain ⟨x, t, rfl⟩ := List.exists_cons_of_ne_nil hpne
    have hx : x = a := by simpa using h1
    subst hx
    obtain ⟨y, t', rfl⟩ : ∃ y t', t = y :: t' := by
      cases t with
      | nil => simp at h5
      | cons y t' => exact ⟨y, t', rfl⟩
    rw [List.getLast?_cons_cons, List.getLast?_eq_getLast (y :: t') (by simp)] at h2
    have hmem := @List.getLast_mem String (y :: t') (by simp)
    rw [Option.some_inj.mp h2] at hmem
    rw [List.nodup_cons] at h4
    exact h4.1 hmem

/-- Witness for C1 at a concrete graph: the emitted path `["A","B"]` from `A`
to `B`, and the `a = b` case yielding the empty list. -/
theorem findAllPathsBFS_sound_witness :
    ((["A", "B"] : List String).head? = some "A" ∧
      (["A", "B"] : List String).getLast? = some "B" ∧
      (["A", "B"] : List String).length ≤ 3 ∧ (["A", "B"] : List String).Nodup) ∧
    findAllPathsBFS (buildTokenGraph [poolAB]) "A" "A" 2 = [] :=
  ⟨(findAllPathsBFS_sound (buildTokenGraph [poolAB]) "A" "B" 2).1
      ["A", "B"] (by decide),
    (findAllPathsBFS_sound (buildTokenGraph [poolAB]) "A" "A" 2).2 rfl⟩

/-! ### C5: what the graph builder actually produces -/

theorem graphGet_graphSet_self (g : Graph) (k : String) (v : List String) :
    graphGet (graphSet g k v) k = v := by
  induction g with
  | nil => simp [graphSet, graphGet]
  | cons e rest ih =>
    by_cases h : e.1 = k
    · simp [graphSet, graphGet, h]
    · simp only [graphSet, graphGet]
      rw [if_neg (by simpa using h)]
      simp only [List.find?]
      rw [show ((e.1 == k) = false) from by simpa using h]
      exact ih

theorem graphGet_graphSet_ne (g : Graph) (k k' : String) (v : List String)
    (h : k' ≠ k) : graphGet (graphSet g k v) k' = graphGet g k' := by
  induction g with
  | nil =>
    simp only [graphSet, graphGet, List.find?]
    rw [show ((k == k') = false) from by simpa using fun he => h he.symm]
  | cons e rest ih =>
    by_cases he : e.1 = k
    · simp only [graphSet, graphGet]
      rw [if_pos (by simpa using he)]
      simp only [List.find?]
      rw [show ((k == k') = false) from by simpa using fun hx => h hx.symm]
      rw [show ((e.1 == k') = false) from by
        simp only [beq_eq_false_iff_ne, ne_eq]
        rw [he]
        exact fun hx => h hx.symm]
    · simp only [graphSet, graphGet]
      rw [if_neg (by simpa using he)]
      simp only [List.find?]
      cases hek : (e.1 == k') with
      | true => rfl
      | false => exact ih

theorem graphGet_append_nil_key (g : Graph) (k k' : String) :
    graphGet (g ++ [(k, [])]) k' = graphGet g k' := by
  induction g with
  | nil =>
    simp only [List.nil_append, graphGet, List.find?]
    cases hkk : (k == k') <;> rfl
  | cons e rest ih =>
    simp only [List.cons_append, graphGet, List.find?]
    cases hek : (e.1 == k') with
    | true => rfl
    | false => exact ih

theorem graphGet_graphEnsure (g : Graph) (k k' : String) :
    graphGet (graphEnsure g k) k' = graphGet g k' := by
  rw [graphEnsure]
  split
  · rfl
  · exact graphGet_append_nil_key g k k'

theorem graphGet_graphPush_self (g : Graph) (k x : String) :
    graphGet (graphPush g k x) k = graphGet g k ++ [x] :=
  graphGet_graphSet_self g k (graphGet g k ++ [x])

theorem graphGet_graphPush_ne (g : Graph) (k k' x : String) (h : k' ≠ k) :
    graphGet (graphPush g k x) k' = graphGet g k' :=
  graphGet_graphSet_ne g k k' (graphGet g k ++ [x]) h

/-- Effect of the ensure/ensure/push/push sequence of one `buildTokenGraph`
iteration on the multiplicity of `u` in `t`'s adjacency list, for arbitrary
endpoint strings. -/
theorem count_pushpush (g : Graph) (a b t u : String) :
    (graphGet (graphPush (graphPush (graphEnsure (graphEnsure g a) b) a b) b a) t).count u =
      (graphGet g t).count u +
        ((if a = t ∧ b = u then 1 else 0) + (if b = t ∧ a = u then 1 else 0)) := by
  have hens : ∀ k', graphGet (graphEnsure (graphEnsure g a) b) k' = graphGet g k' := by
    intro k'
    rw [graphGet_graphEnsure, graphGet_graphEnsure]
  by_cases hta : t = a
  · rw [hta]
    by_cases hab : a = b
    · rw [← hab] at hens ⊢
      rw [graphGet_graphPush_self, graphGet_graphPush_self, hens,
        List.count_append, List.count_append, List.count_singleton]
      by_cases hau : a = u <;> simp [hau]
    · rw [graphGet_graphPush_ne _ _ _ _ hab, graphGet_graphPush_self, hens,
        List.count_append, List.count_singleton]
      have hba : b ≠ a := fun h => hab h.symm
      by_cases hbu : b = u
      · have hua : ¬u = a := fun h => hba (hbu.trans h)
        simp [hbu, hba, hua]
      · simp [hbu, hba]
  · by_cases htb : t = b
    · rw [htb]
      have hba : b ≠ a := fun h => hta (htb.trans h)
      have hab : a ≠ b := fun h => hba h.symm
      rw [graphGet_graphPush_self, graphGet_graphPush_ne _ _ _ _ hba, hens,
        List.count_append, List.count_singleton]
      by_cases hau : a = u
      · have hub : ¬u = b := fun h => hab (hau.trans h)
        simp [hau, hab, hub]
      · simp [hau, hab]
    · have hat : a ≠ t := fun h => hta h.symm
      have hbt : b ≠ t := fun h => htb h.symm
      rw [graphGet_graphPush_ne _ _ _ _ htb, graphGet_graphPush_ne _ _ _ _ hta,
        hens]
      simp [hat, hbt]

/-- Effect of one `buildTokenGraph` loop iteration on the multiplicity of `u`
in `t`'s adjacency list. -/
theorem count_buildStep (g : Graph) (p : Pool) (t u : String) :
    (graphGet (buildStep g p) t).count u =
      (graphGet g t).count u + poolDegree t u p :=
  count_pushpush g p.tokenA.address p.tokenB.address t u

theorem count_buildFold (pools : List Pool) (t u : String) :
    ∀ g : Graph, (graphGet (pools.foldl buildStep g) t).count u =
      (graphGet g t).count u + (pools.map (poolDegree t u)).sum := by
  induction pools with
  | nil => intro g; simp
  | cons p ps ih =>
    intro g
    rw [List.foldl_cons, ih (buildStep g p), count_buildStep, List.map_cons,
      List.sum_cons]
    omega

/-- C5 (amended): the token graph builder gives each token one adjacency
entry per pool side — the multiplicity of `u` in `t`'s adjacency list equals
the number of (pool, direction) records joining `t` to `u`, so parallel pools
yield parallel edges rather than collapsing to one. -/
theorem buildTokenGraph_count (pools : List Pool) (t u : String) :
    (graphGet (buildTokenGraph pools) t).count u =
      (pools.map (poolDegree t u)).sum := by
  rw [buildTokenGraph, count_buildFold]
  simp [graphGet]

/-- C5 counterexample: two parallel pools over the same pair `A`–`B` do not
collapse to a single edge — the adjacency list of `A` is `["B", "B"]`, the
built graph differs from the one built from a single pool, and the path
enumerator emits the path `["A", "B"]` twice. -/
theorem buildTokenGraph_parallel_counterexample :
    graphGet (buildTokenGraph [poolAB, poolAB2]) "A" = ["B", "B"] ∧
    buildTokenGraph [poolAB, poolAB2] ≠ buildTokenGraph [poolAB] ∧
    findAllPathsBFS (buildTokenGraph [poolAB, poolAB2]) "A" "B" 2 =
      [["A", "B"], ["A", "B"]] ∧
    ¬ (findAllPathsBFS (buildTokenGraph [poolAB, poolAB2]) "A" "B" 2).Nodup := by
  refine ⟨by decide, by decide, by decide, by decide⟩

/-! ### C2: how `findOptimalPath` selects the optimal route -/

theorem selInv_evalStep (chain : List Pair) (amt : Nat) (st : EvalState)
    (path : List String) (h : selInv st) :
    selInv (evalStep chain amt st path) := by
  obtain ⟨hwf, hnone, hsome⟩ := h
  simp only [evalStep]
  cases hq : getAmountsOut chain amt path with
  | error e => exact ⟨hwf, hnone, hsome⟩
  | ok amounts =>
    simp only
    set output := amounts.getLastD 0 with houtdef
    set qnew : RouteQuote :=
      { path := path, expectedOutput := output, hops := path.length - 1,
        gasEstimate := estimateMultiHopGas path } with hqnew
    have hwf' : quotesWf (st.allPaths ++ [qnew]) := by
      intro q hqm
      rcases List.mem_append.mp hqm with hm | hm
      · exact hwf q hm
      · rw [List.mem_singleton] at hm
        subst hm
        exact ⟨rfl, rfl⟩
    by_cases hgt : output > st.bestOutput
    · rw [if_pos hgt]
      have hall : ∀ q1 ∈ st.allPaths, q1.expectedOutput < output := by
        intro q1 hm
        cases hbp : st.bestPath with
        | none =>
          obtain ⟨hz, hallz⟩ := hnone hbp
          rw [hallz q1 hm]
          omega
        | some p' =>
          obtain ⟨l1, q', l2, hsplit, _, hqe, _, hl1, hl2⟩ := hsome p' hbp
          rw [hsplit] at hm
          rcases List.mem_append.mp hm with hm | hm
          · exact lt_trans (hl1 q1 hm) hgt
          · rcases List.mem_cons.mp hm with hm | hm
            · rw [hm, hqe]; exact hgt
            · exact lt_of_le_of_lt (hl2 q1 hm) hgt
      have hinv : selInv
          { allPaths := st.allPaths ++ [qnew], direct := st.direct,
            bestPath := some path, bestOutput := output } := by
        refine ⟨hwf', ?_, ?_⟩
        · intro hcontra; simp at hcontra
        · intro p hp
          simp only [Option.some_inj] at hp
          refine ⟨st.allPaths, qnew, [], by simp, by rw [← hp], rfl, ?_, hall, by simp⟩
          exact Nat.lt_of_le_of_lt (Nat.zero_le st.bestOutput) hgt
      split
      · exact hinv
      · exact hinv
    · rw [if_neg hgt]
      have hle : qnew.expectedOutput ≤ st.bestOutput := by
        simpa using Nat.le_of_not_lt hgt
      have hinv : selInv
          { allPaths := st.allPaths ++ [qnew], direct := st.direct,
            bestPath := st.bestPath, bestOutput := st.bestOutput } := by
        refine ⟨hwf', ?_, ?_⟩
        · intro hbp
          obtain ⟨hz, hallz⟩ := hnone hbp
          refine ⟨hz, ?_⟩
          intro q hm
          rcases List.mem_append.mp hm with hm | hm
          · exact hallz q hm
          · rw [List.mem_singleton] at hm
            subst hm
            omega
        · intro p hp
          obtain ⟨l1, q', l2, hsplit, hqp, hqe, hpos, hl1, hl2⟩ := hsome p hp
          refine ⟨l1, q', l2 ++ [qnew], ?_, hqp, hqe, hpos, hl1, ?_⟩
          · rw [hsplit]
            simp
          · intro q2 hm
            rcases List.mem_append.mp hm with hm | hm
            · exact hl2 q2 hm
            · rw [List.mem_singleton] at hm
              subst hm
              exact hle
      split
      · exact hinv
      · exact hinv

theorem selInv_foldl (chain : List Pair) (amt : Nat) (l : List (List String)) :
    ∀ st, selInv st → selInv (l.foldl (evalStep chain amt) st) := by
  induction l with
  | nil => intro st h; exact h
  | cons p ps ih => intro st h; exact ih _ (selInv_evalStep chain amt st p h)

theorem evalStep_paths (chain : List Pair) (amt : Nat) (st : EvalState)
    (path : List String) :
    ∀ q ∈ (evalStep chain amt st path).allPaths, q ∈ st.allPaths ∨ q.path = path := by
  intro q hq
  simp only [evalStep] at hq
  cases hgq : getAmountsOut chain amt path with
  | error e =>
    rw [hgq] at hq
    exact Or.inl hq
  | ok amounts =>
    rw [hgq] at hq
    simp only at hq
    split_ifs at hq <;>
      · simp only [List.mem_append, List.mem_singleton] at hq
        rcases hq with hq | hq
        · exact Or.inl hq
        · subst hq
          exact Or.inr rfl

theorem foldl_paths (chain : List Pair) (amt : Nat) (l : List (List String)) :
    ∀ st q, q ∈ (l.foldl (evalStep chain amt) st).allPaths →
      q ∈ st.allPaths ∨ q.path ∈ l := by
  induction l with
  | nil =>
    intro st q hq
    exact Or.inl hq
  | cons p ps ih =>
    intro st q hq
    rcases ih (evalStep chain amt st p) q hq with hm | hm
    · rcases evalStep_paths chain amt st p q hm with hm' | hm'
      · exact Or.inl hm'
      · exact Or.inr (by rw [hm']; exact List.mem_cons_self _ _)
    · exact Or.inr (List.mem_cons_of_mem _ hm)

/-- C2 (amended): whenever `findOptimalPath` reports an optimal route, that
route's expected output is positive and is ≥ the expected output of every
surviving path, with every *earlier*-discovered surviving path strictly worse
(so among equally-good best paths the first-discovered wins); when every
surviving path's output is 0 (in particular when none survives) no optimal
route is reported. -/
theorem findOptimalPath_optimal_correct (pools : List Pool) (chain : List Pair)
    (a b : String) (amt : Nat) :
    (∀ q, (findOptimalPath pools chain a b amt).optimal = some q →
      0 < q.expectedOutput ∧
      ∃ l1 l2, (findOptimalPath pools chain a b amt).allPaths = l1 ++ q :: l2 ∧
        (∀ q1 ∈ l1, q1.expectedOutput < q.expectedOutput) ∧
        (∀ q2 ∈ l2, q2.expectedOutput ≤ q.expectedOutput)) ∧
    ((findOptimalPath pools chain a b amt).optimal = none →
      ∀ q ∈ (findOptimalPath pools chain a b amt).allPaths,
        q.expectedOutput = 0) := by
  rw [findOptimalPath]
  split
  · constructor
    · intro q hq
      simp at hq
    · intro _ q hq
      simp at hq
  · set st := (findAllPathsBFS (buildTokenGraph pools) a b 4).foldl
      (evalStep chain amt)
      { allPaths := [], direct := none, bestPath := none, bestOutput := 0 }
      with hst
    have hinv : selInv st := by
      refine selInv_foldl chain amt _ _ ⟨?_, ?_, ?_⟩
      · intro q hq
        simp at hq
      · intro _
        exact ⟨rfl, by intro q hq; simp at hq⟩
      · intro p hp
        simp at hp
    obtain ⟨hwf, hnone, hsome⟩ := hinv
    constructor
    · intro q hq
      simp only [Option.map_eq_some'] at hq
      obtain ⟨p, hbp, hqdef⟩ := hq
      obtain ⟨l1, q0, l2, hsplit, hq0p, hq0e, hpos, hl1, hl2⟩ := hsome p hbp
      have hq0 : q0 = q := by
        obtain ⟨h1, h2⟩ := hwf q0 (by rw [hsplit]; simp)
        rw [← hqdef]
        cases q0 with
        | mk qp qe qh qg =>
          simp only at hq0p hq0e h1 h2
          subst hq0p
          subst hq0e
          rw [h1, h2]
      constructor
      · rw [← hqdef]
        simpa using hpos
      · refine ⟨l1, l2, ?_, ?_, ?_⟩
        · simp only
          rw [hsplit, hq0]
        · intro q1 hm
          have := hl1 q1 hm
          rw [← hqdef]
          simpa using this
        · intro q2 hm
          have := hl2 q2 hm
          rw [← hqdef]
          simpa using this
    · intro hq
      simp only [Option.map_eq_none'] at hq
      exact fun q hm => (hnone hq).2 q hm

/-- C2 counterexample: with reserves draining the output side of both X→Y
routes, two paths survive with equal output 0, yet no route is reported as
optimal — the first-discovered of the tied surviving paths is *not* selected. -/
theorem findOptimalPath_zero_tie_counterexample :
    (findOptimalPath zeroPools chainZero "X" "Y" 10).allPaths.map
        (fun q => (q.path, q.expectedOutput)) =
      [(["X", "Y"], 0), (["X", "Z", "Y"], 0)] ∧
    (findOptimalPath zeroPools chainZero "X" "Y" 10).optimal = none := by
  refine ⟨by decide, by decide⟩

/-- Witness for C2 at a concrete request with a positive-output survivor. -/
theorem findOptimalPath_optimal_correct_witness :
    0 < quoteABCDE.expectedOutput ∧
    ∃ l1 l2, (findOptimalPath chainPools chain4 "A" "E" 100).allPaths =
        l1 ++ quoteABCDE :: l2 ∧
      (∀ q1 ∈ l1, q1.expectedOutput < quoteABCDE.expectedOutput) ∧
      (∀ q2 ∈ l2, q2.expectedOutput ≤ quoteABCDE.expectedOutput) :=
  (findOptimalPath_optimal_correct chainPools chain4 "A" "E" 100).1 quoteABCDE
    (by decide)

/-! ### C6: hop bounds used by the two enumeration entry points -/

/-- C6 (amended): the `/all-paths` bound is the supplied `maxHops` capped at
4, with 3 substituted when the value is absent, non-numeric or 0; the
optimal-path computation does not use that bound — every path it reports
comes from enumeration with the hard-coded depth 4. -/
theorem maxHops_clamp_and_depth :
    allPathsMaxHops none = 3 ∧
    (∀ h, allPathsMaxHops (some h) ≤ 4) ∧
    (∀ h, 0 < h → h ≤ 4 → allPathsMaxHops (some h) = h) ∧
    (∀ (pools : List Pool) (chain : List Pair) (a b : String) (amt : Nat)
        (q : RouteQuote),
      q ∈ (findOptimalPath pools chain a b amt).allPaths →
      q.path ∈ findAllPathsBFS (buildTokenGraph pools) a b 4) := by
  refine ⟨rfl, ?_, ?_, ?_⟩
  · intro h
    rw [allPathsMaxHops]
    split <;> omega
  · intro h h0 h4
    rw [allPathsMaxHops]
    rw [if_neg (by omega)]
    omega
  · intro pools chain a b amt q hq
    rw [findOptimalPath] at hq
    split at hq
    · simp at hq
    · simp only at hq
      rcases foldl_paths chain amt _ _ q hq with hm | hm
      · simp at hm
      · exact hm

/-- C6 counterexample: on the line A–B–C–D–E the optimal-path request reports
the 4-hop route, which enumeration with `H = 3` cannot produce (it returns no
path at all) — so the optimal-path request does not enumerate with `H = 3`. -/
theorem optimalPath_depth_counterexample :
    (findOptimalPath chainPools chain4 "A" "E" 100).allPaths.map
        (fun q => q.path) = [["A", "B", "C", "D", "E"]] ∧
    findAllPathsBFS (buildTokenGraph chainPools) "A" "E" 3 = [] := by
  refine ⟨by decide, by decide⟩

/-- Witness for C6: the clamp at a concrete in-range value, and a concrete
reported path produced by depth-4 enumeration. -/
theorem maxHops_clamp_and_depth_witness :
    allPathsMaxHops (some 2) = 2 ∧
    (["A", "B", "C", "D", "E"] : List String) ∈
      findAllPathsBFS (buildTokenGraph chainPools) "A" "E" 4 :=
  ⟨maxHops_clamp_and_depth.2.2.1 2 (by decide) (by decide),
    maxHops_clamp_and_depth.2.2.2 chainPools chain4 "A" "E" 100 quoteABCDE
      (by decide)⟩

/-! ### C8: monotonicity of the chained quote -/

theorem getQuantityOut_mono (p : Pair) (tin : String) (a1 a2 o1 o2 : Nat)
    (h12 : a1 ≤ a2) (h1 : getQuantityOut p tin a1 = .ok o1)
    (h2 : getQuantityOut p tin a2 = .ok o2) : o1 ≤ o2 := by
  rw [getQuantityOut] at h1 h2
  by_cases ha1 : a1 = 0
  · rw [if_pos ha1] at h1
    exact absurd h1 (by simp)
  · rw [if_neg ha1] at h1
    have ha2 : a2 ≠ 0 := by omega
    rw [if_neg ha2] at h2
    by_cases ht0 : tin = p.token0
    · rw [if_pos ht0] at h1 h2
      have ho1 : o1 = p.reserve1 - p.reserve0 * p.reserve1 / (p.reserve0 + a1) := by
        have := h1
        simp at this
        omega
      have ho2 : o2 = p.reserve1 - p.reserve0 * p.reserve1 / (p.reserve0 + a2) := by
        have := h2
        simp at this
        omega
      rw [ho1, ho2]
      apply Nat.sub_le_sub_left
      apply Nat.div_le_div_left
      · omega
      · omega
    · rw [if_neg ht0] at h1 h2
      by_cases ht1 : tin = p.token1
      · rw [if_pos ht1] at h1 h2
        have ho1 : o1 = p.reserve0 - p.reserve1 * p.reserve0 / (p.reserve1 + a1) := by
          have := h1
          simp at this
          omega
        have ho2 : o2 = p.reserve0 - p.reserve1 * p.reserve0 / (p.reserve1 + a2) := by
          have := h2
          simp at this
          omega
        rw [ho1, ho2]
        apply Nat.sub_le_sub_left
        apply Nat.div_le_div_left
        · omega
        · omega
      · rw [if_neg ht1] at h1
        exact absurd h1 (by simp)

theorem getAmountOut_mono (chain : List Pair) (tin tout : String)
    (a1 a2 o1 o2 : Nat) (h12 : a1 ≤ a2)
    (h1 : getAmountOut chain a1 tin tout = .ok o1)
    (h2 : getAmountOut chain a2 tin tout = .ok o2) : o1 ≤ o2 := by
  rw [getAmountOut] at h1 h2
  cases hp : getPair chain tin tout with
  | none =>
    rw [hp] at h1
    exact absurd h1 (by simp)
  | some p =>
    rw [hp] at h1 h2
    exact getQuantityOut_mono p tin a1 a2 o1 o2 h12 h1 h2

theorem except_bind_ok {α β : Type} (x : Except String α) (f : α → Except String β)
    (b : β) (h : x.bind f = .ok b) : ∃ a, x = .ok a ∧ f a = .ok b := by
  cases x with
  | error e => simp [Except.bind] at h
  | ok a => exact ⟨a, rfl, by simpa [Except.bind] using h⟩

theorem getAmountsFrom_mono (chain : List Pair) :
    ∀ (path : List String) (a1 a2 : Nat) (l1 l2 : List Nat), a1 ≤ a2 →
      getAmountsFrom chain a1 path = .ok l1 →
      getAmountsFrom chain a2 path = .ok l2 →
      (a1 :: l1).getLastD 0 ≤ (a2 :: l2).getLastD 0 := by
  intro path
  induction path with
  | nil =>
    intro a1 a2 l1 l2 h12 h1 h2
    simp only [getAmountsFrom, Except.ok.injEq] at h1 h2
    rw [← h1, ← h2]
    simpa using h12
  | cons t1 rest ih =>
    cases rest with
    | nil =>
      intro a1 a2 l1 l2 h12 h1 h2
      simp only [getAmountsFrom, Except.ok.injEq] at h1 h2
      rw [← h1, ← h2]
      simpa using h12
    | cons t2 rest' =>
      intro a1 a2 l1 l2 h12 h1 h2
      simp only [getAmountsFrom, Bind.bind, pure, Except.pure] at h1 h2
      obtain ⟨n1, hn1, h1'⟩ := except_bind_ok _ _ _ h1
      obtain ⟨tl1, htl1, h1''⟩ := except_bind_ok _ _ _ h1'
      obtain ⟨n2, hn2, h2'⟩ := except_bind_ok _ _ _ h2
      obtain ⟨tl2, htl2, h2''⟩ := except_bind_ok _ _ _ h2'
      simp only [Except.ok.injEq] at h1'' h2''
      have hn12 : n1 ≤ n2 :=
        getAmountOut_mono chain t1 t2 a1 a2 n1 n2 h12 hn1 hn2
      have hrec := ih n1 n2 tl1 tl2 hn12 htl1 htl2
      rw [← h1'', ← h2'', List.getLastD_cons, List.getLastD_cons,
        List.getLastD_cons, List.getLastD_cons]
      rw [List.getLastD_cons, List.getLastD_cons] at hrec
      exact hrec

/-- C8: for a fixed path and fixed pool reserves, the chained quote's final
output is monotonically non-decreasing in the input amount: whenever both
quotes succeed and `a1 ≤ a2`, the final output for `a1` is ≤ the final output
for `a2`. -/
theorem getAmountsOut_mono (chain : List Pair) (path : List String)
    (a1 a2 : Nat) (l1 l2 : List Nat) (h12 : a1 ≤ a2)
    (h1 : getAmountsOut chain a1 path = .ok l1)
    (h2 : getAmountsOut chain a2 path = .ok l2) :
    l1.getLastD 0 ≤ l2.getLastD 0 := by
  rw [getAmountsOut] at h1 h2
  split at h1
  · exact absurd h1 (by simp)
  · rename_i hlen
    rw [if_neg hlen] at h2
    simp only [Bind.bind, pure, Except.pure] at h1 h2
    obtain ⟨tl1, ht1, h1'⟩ := except_bind_ok _ _ _ h1
    obtain ⟨tl2, ht2, h2'⟩ := except_bind_ok _ _ _ h2
    simp only [Except.ok.injEq] at h1' h2'
    rw [← h1', ← h2']
    exact getAmountsFrom_mono chain path a1 a2 tl1 tl2 h12 ht1 ht2

/-- Witness for C8 on the A–B–C route of `chain4` at inputs 100 ≤ 200. -/
theorem getAmountsOut_mono_witness :
    ([100, 91, 84] : List Nat).getLastD 0 ≤ ([200, 167, 144] : List Nat).getLastD 0 :=
  getAmountsOut_mono chain4 ["A", "B", "C"] 100 200 [100, 91, 84]
    [200, 167, 144] (by decide) (by rfl) (by rfl)

/-! ### C4: replaying a `PoolCreated` event -/

theorem tokenFind_none_iff (db : Db) (b : String) :
    db.tokens.find? (fun t => t.address == b) = none ↔ tokenCount db b = 0 := by
  rw [List.find?_eq_none, tokenCount, List.length_eq_zero, List.filter_eq_nil_iff]

theorem tokenCount_upsert (db : Db) (b : String) (m : TokenMeta) (addr : String) :
    tokenCount (upsertToken db b m).1 addr =
      tokenCount db addr +
        (if tokenCount db b = 0 ∧ b = addr then 1 else 0) := by
  cases hf : db.tokens.find? (fun t => t.address == b) with
  | some t =>
    have h0 : ¬tokenCount db b = 0 := by
      intro h
      rw [← tokenFind_none_iff] at h
      rw [h] at hf
      exact Option.noConfusion hf
    simp [upsertToken, hf, h0]
  | none =>
    have h0 : tokenCount db b = 0 := (tokenFind_none_iff db b).mp hf
    simp only [upsertToken, hf]
    by_cases hba : b = addr
    · have hnone : ∀ a ∈ db.tokens, ¬a.address = addr := by
        intro a ha
        have hfn := hf
        rw [List.find?_eq_none] at hfn
        have := hfn a ha
        simpa [hba] using this
      simp [tokenCount, List.filter_append, h0, hba, List.filter]
      rw [if_pos hnone]
    · have : (b == addr) = false := by simpa using hba
      simp [tokenCount, List.filter_append, h0, hba, List.filter, this]

theorem upsertToken_pools (db : Db) (b : String) (m : TokenMeta) :
    (upsertToken db b m).1.pools = db.pools := by
  rw [upsertToken]
  cases db.tokens.find? (fun t => t.address == b) <;> rfl

theorem tokenCount_upsert_le (db : Db) (b : String) (m : TokenMeta)
    (addr : String) (h : tokenCount db addr ≤ 1) :
    tokenCount (upsertToken db b m).1 addr ≤ 1 := by
  rw [tokenCount_upsert]
  by_cases hc : tokenCount db b = 0 ∧ b = addr
  · obtain ⟨h0, he⟩ := hc
    rw [he] at h0
    rw [if_pos ⟨he ▸ h0, he⟩]
    omega
  · rw [if_neg hc]
    omega

theorem tokenCount_upsert_self_eq (db : Db) (b : String) (m : TokenMeta)
    (h : tokenCount db b ≤ 1) :
    tokenCount (upsertToken db b m).1 b = 1 := by
  rw [tokenCount_upsert]
  by_cases h0 : tokenCount db b = 0
  · simp [h0]
  · have h1 : tokenCount db b = 1 := by omega
    simp [h0, h1]

theorem tokenCount_upsert_preserve_one (db : Db) (b : String) (m : TokenMeta)
    (addr : String) (h : tokenCount db addr = 1) :
    tokenCount (upsertToken db b m).1 addr = 1 := by
  rw [tokenCount_upsert]
  by_cases hc : tokenCount db b = 0 ∧ b = addr
  · obtain ⟨h0, he⟩ := hc
    rw [he] at h0
    omega
  · rw [if_neg hc]
    omega

theorem poolAny_iff (db : Db) (addr : String) :
    db.pools.any (fun p => p.address == addr) = true ↔ 1 ≤ poolCount db addr := by
  rw [List.any_eq_true, poolCount]
  constructor
  · rintro ⟨x, hx, hpx⟩
    have hm : x ∈ db.pools.filter (fun p => p.address == addr) :=
      List.mem_filter.mpr ⟨hx, hpx⟩
    have := List.length_pos_of_mem hm
    omega
  · intro h
    have hne : db.pools.filter (fun p => p.address == addr) ≠ [] := by
      intro hnil
      rw [hnil] at h
      simp at h
    obtain ⟨x, hx⟩ := List.exists_mem_of_ne_nil _ hne
    obtain ⟨h1, h2⟩ := List.mem_filter.mp hx
    exact ⟨x, h1, h2⟩

theorem createPool_error_of_exists (db : Db) (addr : String) (ta tb : Nat)
    (h : 1 ≤ poolCount db addr) :
    createPool db addr ta tb =
      .error "Unique constraint failed on Pool_address_key" := by
  rw [createPool, if_pos ((poolAny_iff db addr).mpr h)]

theorem createPool_ok_shape (db : Db) (addr : String) (ta tb : Nat) (db' : Db)
    (h : createPool db addr ta tb = .ok db') :
    db'.tokens = db.tokens ∧ poolCount db addr = 0 ∧
      ∀ addr', poolCount db' addr' =
        poolCount db addr' + (if addr = addr' then 1 else 0) := by
  rw [createPool] at h
  split at h
  · exact absurd h (by simp)
  · rename_i hany
    have hcount : poolCount db addr = 0 := by
      rw [Bool.not_eq_true] at hany
      have := (not_congr (poolAny_iff db addr)).mp (by rw [hany]; simp)
      omega
    simp only [Except.ok.injEq] at h
    subst h
    refine ⟨rfl, hcount, ?_⟩
    intro addr'
    by_cases he : addr = addr'
    · simp [poolCount, List.filter_append, List.filter, he]
    · have : (addr == addr') = false := by simpa using he
      simp [poolCount, List.filter_append, List.filter, he, this]

theorem upsertToken_of_count_one (db : Db) (b : String) (m : TokenMeta)
    (h : tokenCount db b = 1) : (upsertToken db b m).1 = db := by
  cases hf : db.tokens.find? (fun t => t.address == b) with
  | some t => simp [upsertToken, hf]
  | none =>
    rw [tokenFind_none_iff] at hf
    omega

/-- C4 (amended): replaying the same `PoolCreated` event leaves the store
with exactly one Token row per token address and exactly one Pool row for the
pool address, and the second processing changes nothing — but it terminates
with the `Pool_address_key` unique-constraint error (the pool insert is a
plain create, not an upsert), not as a silent no-op. -/
theorem handlePairCreated_replay (db : Db) (ev : PairCreatedEvent)
    (mA mB : TokenMeta)
    (hT : ∀ addr, tokenCount db addr ≤ 1)
    (hP : ∀ addr, poolCount db addr ≤ 1) :
    (handlePairCreated (handlePairCreated db ev mA mB).1 ev mA mB).1 =
      (handlePairCreated db ev mA mB).1 ∧
    (handlePairCreated (handlePairCreated db ev mA mB).1 ev mA mB).2 =
      .error "Unique constraint failed on Pool_address_key" ∧
    tokenCount (handlePairCreated (handlePairCreated db ev mA mB).1 ev mA mB).1
      ev.tokenA = 1 ∧
    tokenCount (handlePairCreated (handlePairCreated db ev mA mB).1 ev mA mB).1
      ev.tokenB = 1 ∧
    poolCount (handlePairCreated (handlePairCreated db ev mA mB).1 ev mA mB).1
      ev.pair = 1 := by
  have hA1 : tokenCount (upsertToken db ev.tokenA mA).1 ev.tokenA = 1 :=
    tokenCount_upsert_self_eq db ev.tokenA mA (hT ev.tokenA)
  have hA2 : tokenCount
      (upsertToken (upsertToken db ev.tokenA mA).1 ev.tokenB mB).1 ev.tokenA = 1 :=
    tokenCount_upsert_preserve_one _ ev.tokenB mB ev.tokenA hA1
  have hB2 : tokenCount
      (upsertToken (upsertToken db ev.tokenA mA).1 ev.tokenB mB).1 ev.tokenB = 1 :=
    tokenCount_upsert_self_eq _ ev.tokenB mB
      (tokenCount_upsert_le db ev.tokenA mA ev.tokenB (hT ev.tokenB))
  have hpools2 :
      (upsertToken (upsertToken db ev.tokenA mA).1 ev.tokenB mB).1.pools = db.pools := by
    rw [upsertToken_pools, upsertToken_pools]
  have hpc2 : ∀ addr,
      poolCount (upsertToken (upsertToken db ev.tokenA mA).1 ev.tokenB mB).1 addr =
        poolCount db addr := by
    intro addr
    simp only [poolCount, hpools2]
  -- the state `D` the first processing leaves behind, and its properties
  have hmain : ∀ D : Db, (handlePairCreated db ev mA mB).1 = D →
      tokenCount D ev.tokenA = 1 → tokenCount D ev.tokenB = 1 →
      poolCount D ev.pair = 1 →
      (handlePairCreated D ev mA mB).1 = D ∧
      (handlePairCreated D ev mA mB).2 =
        .error "Unique constraint failed on Pool_address_key" := by
    intro D _ htA htB hpD
    have hu1 : (upsertToken D ev.tokenA mA).1 = D :=
      upsertToken_of_count_one D ev.tokenA mA htA
    have hu2 : (upsertToken (upsertToken D ev.tokenA mA).1 ev.tokenB mB).1 = D := by
      rw [hu1]
      exact upsertToken_of_count_one D ev.tokenB mB htB
    have key : handlePairCreated D ev mA mB =
        (D, .error "Unique constraint failed on Pool_address_key") := by
      simp only [handlePairCreated]
      rw [hu2, hu1, createPool_error_of_exists D ev.pair _ _ (by omega)]
    exact ⟨by rw [key], by rw [key]⟩
  -- establish the properties of the first processing's resulting state
  cases hcp1 : createPool (upsertToken (upsertToken db ev.tokenA mA).1 ev.tokenB mB).1
      ev.pair (upsertToken db ev.tokenA mA).2.id
      (upsertToken (upsertToken db ev.tokenA mA).1 ev.tokenB mB).2.id with
  | ok db' =>
    have hr1 : (handlePairCreated db ev mA mB).1 = db' := by
      simp only [handlePairCreated, hcp1]
    obtain ⟨htok, hzero, hcountall⟩ := createPool_ok_shape _ ev.pair _ _ db' hcp1
    have htA : tokenCount db' ev.tokenA = 1 := by
      rw [tokenCount, htok]
      exact hA2
    have htB : tokenCount db' ev.tokenB = 1 := by
      rw [tokenCount, htok]
      exact hB2
    have hpD : poolCount db' ev.pair = 1 := by
      rw [hcountall ev.pair, if_pos rfl]
      omega
    obtain ⟨h1, h2⟩ := hmain db' hr1 htA htB hpD
    rw [hr1]
    exact ⟨by rw [h1], h2, by rw [h1]; exact htA, by rw [h1]; exact htB,
      by rw [h1]; exact hpD⟩
  | error e =>
    have hr1 : (handlePairCreated db ev mA mB).1 =
        (upsertToken (upsertToken db ev.tokenA mA).1 ev.tokenB mB).1 := by
      simp only [handlePairCreated, hcp1]
    have hexists : 1 ≤ poolCount
        (upsertToken (upsertToken db ev.tokenA mA).1 ev.tokenB mB).1 ev.pair := by
      by_contra hlt
      have h0 : poolCount
          (upsertToken (upsertToken db ev.tokenA mA).1 ev.tokenB mB).1 ev.pair = 0 := by
        omega
      rw [createPool] at hcp1
      rw [if_neg (by
        intro hany
        have := (poolAny_iff _ ev.pair).mp hany
        omega)] at hcp1
      exact Except.noConfusion hcp1
    have hpD : poolCount
        (upsertToken (upsertToken db ev.tokenA mA).1 ev.tokenB mB).1 ev.pair = 1 := by
      have := hpc2 ev.pair
      have := hP ev.pair
      omega
    obtain ⟨h1, h2⟩ := hmain _ hr1 hA2 hB2 hpD
    rw [hr1]
    exact ⟨by rw [h1], h2, by rw [h1]; exact hA2, by rw [h1]; exact hB2,
      by rw [h1]; exact hpD⟩

/-- C4 counterexample: processing the same `PoolCreated` event twice from an
empty store makes the second processing raise the `Pool.address` unique
-constraint error — it does not complete as a no-op. -/
theorem handlePairCreated_replay_errors :
    (handlePairCreated (handlePairCreated dbEmpty evAB metaTKA metaTKB).1
        evAB metaTKA metaTKB).2 =
      .error "Unique constraint failed on Pool_address_key" := by
  rfl

/-- Witness for C4 on the empty store. -/
theorem handlePairCreated_replay_witness :
    (handlePairCreated (handlePairCreated dbEmpty evAB metaTKA metaTKB).1
        evAB metaTKA metaTKB).1 =
      (handlePairCreated dbEmpty evAB metaTKA metaTKB).1 ∧
    (handlePairCreated (handlePairCreated dbEmpty evAB metaTKA metaTKB).1
        evAB metaTKA metaTKB).2 =
      .error "Unique constraint failed on Pool_address_key" ∧
    tokenCount (handlePairCreated (handlePairCreated dbEmpty evAB metaTKA metaTKB).1
        evAB metaTKA metaTKB).1 evAB.tokenA = 1 ∧
    tokenCount (handlePairCreated (handlePairCreated dbEmpty evAB metaTKA metaTKB).1
        evAB metaTKA metaTKB).1 evAB.tokenB = 1 ∧
    poolCount (handlePairCreated (handlePairCreated dbEmpty evAB metaTKA metaTKB).1
        evAB metaTKA metaTKB).1 evAB.pair = 1 :=
  handlePairCreated_replay dbEmpty evAB metaTKA metaTKB
    (fun addr => by simp [tokenCount, dbEmpty])
    (fun addr => by simp [poolCount, dbEmpty])

/-! ### C7: empty routing results versus the pool-by-id lookup -/

/-- C7 (amended): a routing request between unconnected tokens resolves to a
valid, empty result (`direct` and `optimal` absent, `allPaths` empty), not an
error; but a `/pool/:id` lookup for a nonexistent pool id is answered with a
404 `"Pool not Found"` error response, not an empty result. -/
theorem empty_results (pools : List Pool) (chain : List Pair) (a b : String)
    (amt : Nat)
    (hnp : findAllPathsBFS (buildTokenGraph pools) a b 4 = [])
    (dbPools : List DbPool) (liq : List LiquidityRow) (iD : Nat)
    (hnf : ∀ p ∈ dbPools, p.id ≠ iD) :
    findOptimalPath pools chain a b amt =
      { direct := none, optimal := none, allPaths := [] } ∧
    getPoolById dbPools liq iD = .notFound 404 "Pool not Found" := by
  constructor
  · rw [findOptimalPath, hnp]
    simp
  · rw [getPoolById]
    have : dbPools.find? (fun p => p.id == iD) = none := by
      rw [List.find?_eq_none]
      intro p hp
      simpa using hnf p hp
    rw [this]

/-- C7 counterexample: looking up a pool identity for which no pool exists is
answered with the 404 error `"Pool not Found"` — an error, not a valid empty
result. -/
theorem getPoolById_missing_counterexample :
    getPoolById [] [] 1 = .notFound 404 "Pool not Found" := by
  rfl

/-- Witness for C7: tokens `"C"`, `"D"` are unconnected in the single-pool
registry `[poolAB]`, and the empty store has no pool with id 1. -/
theorem empty_results_witness :
    findOptimalPath [poolAB] chain4 "C" "D" 100 =
      { direct := none, optimal := none, allPaths := [] } ∧
    getPoolById [⟨1, "pool-ab", 1, 2⟩] [] 7 = .notFound 404 "Pool not Found" :=
  empty_results [poolAB] chain4 "C" "D" 100 (by decide)
    [⟨1, "pool-ab", 1, 2⟩] [] 7 (by decide)

/-! ### C10: input validation of the multi-hop quote endpoint -/

/-- C10: the multi-hop quote endpoint answers 400 `"Invalid path"` exactly
when the request's `path` is not an array or has fewer than 2 entries — and
in that case the response does not depend on the chain state or the amount
(no quoting work is performed); for a well-formed path the validation error
is never returned. -/
theorem multiHopQuote_validates (chain : List Pair)
    (pathField : Option (List String)) (amt : Nat) :
    ((pathField = none ∨ ∃ l, pathField = some l ∧ l.length < 2) →
      multiHopQuote chain pathField amt = .badRequest "Invalid path" ∧
      ∀ (chain' : List Pair) (amt' : Nat),
        multiHopQuote chain pathField amt = multiHopQuote chain' pathField amt') ∧
    (∀ l, pathField = some l → 2 ≤ l.length →
      multiHopQuote chain pathField amt ≠ .badRequest "Invalid path") := by
  constructor
  · intro hbad
    rcases hbad with hnone | ⟨l, hsome, hlen⟩
    · subst hnone
      exact ⟨rfl, fun chain' amt' => rfl⟩
    · subst hsome
      constructor
      · rw [multiHopQuote, if_pos hlen]
      · intro chain' amt'
        rw [multiHopQuote, if_pos hlen, multiHopQuote, if_pos hlen]
  · intro l hsome hlen
    subst hsome
    rw [multiHopQuote, if_neg (by omega)]
    cases getAmountsOut chain amt l with
    | error e => simp
    | ok amounts => simp

/-- Witness for C10: a missing/non-array path and a too-short path are both
rejected with the 400 error, and a 2-token path is not. -/
theorem multiHopQuote_validates_witness :
    (multiHopQuote chain4 none 100 = .badRequest "Invalid path" ∧
      ∀ (chain' : List Pair) (amt' : Nat),
        multiHopQuote chain4 none 100 = multiHopQuote chain' none amt') ∧
    multiHopQuote chain4 (some ["A", "B"]) 100 ≠ .badRequest "Invalid path" :=
  ⟨(multiHopQuote_validates chain4 none 100).1 (Or.inl rfl),
    (multiHopQuote_validates chain4 (some ["A", "B"]) 100).2 ["A", "B"] rfl
      (by decide)⟩

/-! ### C3: what the Swap handler persists when the input is on side 1 -/

/-- C3: at a Swap event whose nonzero input amount is on side 1
(`amount0In = 0`, `amount1In = 500`, `amount0Out = 300`, `amount1Out = 0`)
the persisted record carries `amountIn = "0"` — the zero side — because
`amount0In.toString() || amount1In.toString()` tests the string `"0"`, which
is truthy; the side designations (`token1` in, `token0` out) are correct, and
the claimed behaviour (`amountIn = "500"`) does not hold. -/
theorem handleSwap_side1_bug :
    handleSwap dbOnePool "pool-ab" ⟨"swapper", 0, 500, 300, 0, "recipient"⟩ =
      some { poolId := 1, trader := "swapper", amountIn := "0",
             amountOut := "300", tokenIn := "token1", tokenOut := "token0" } ∧
    ("0" : String) ≠ "500" := by
  refine ⟨by rfl, by decide⟩

/-! ### C9: how the portfolio endpoint groups positions -/

/-- C9: two positions held in two *distinct* pools (ids 1 and 2) whose pools
share the token-symbol pair `T`/`U` are merged into a single group keyed by
the symbol string `"T-U"` (carrying the first position's poolId and the summed
totals of both pools), because the grouping key is built from token symbols,
not the pool identity. -/
theorem portfolio_merges_same_symbol_pools :
    portfolioGroups [⟨1, "T", "U", 10, 20⟩, ⟨2, "T", "U", 1, 2⟩] =
      [{ pool := "T-U", poolId := 1, totalAmountA := 11, totalAmountB := 22,
         positionsCount := 2 }] := by
  rfl

end Engine
